import Mathlib

/-!
A verification development for the core of the palette color library.

The embedding follows src/palette/src/lib.rs, src/palette/src/xyz.rs and
src/palette/src/lch.rs. Color values are small records of scalar channels;
the Rust code is generic over a scalar type T implementing Float, which is
embedded here as a linear ordered field (rationals for the algebraic
operations, reals where square roots and angles are needed). The phantom
white point tag of the Rust types carries a reference tristimulus value at
the type level; operations that consult it take that reference value as an
explicit argument here.

Parts of the repository that the sources do not include (hues.rs with the
LabHue angle type, lab.rs with the Lab hue query, white_point.rs with the
illuminant constants) are modelled from the specification where needed and
are marked as such in their doc comments.
-/

namespace Palette

/-- The clamp helper from src/palette/src/lib.rs: if v is below min return
min, if v is above max return max, otherwise v. -/
def clamp {K : Type} [LinearOrder K] (v lo hi : K) : K :=
  if v < lo then lo
  else if v > hi then hi
  else v

/-- Modelled from the spec: hues.rs (the LabHue angle type and its
to_degrees normalization) is not among the sources. Per the spec, the
signed hue difference is taken mod 360 and mapped to the interval
(-180, 180]. -/
def normalizeAngle {K : Type} [LinearOrderedField K] [FloorRing K] (d : K) : K :=
  d - 360 * (⌈(d - 180) / 360⌉ : ℤ)

/-- Modelled from the spec: hues.rs, carrying the hue angle type and its
comparison, is not among the sources. Per the spec, hue values are angles:
shifting a hue by 360 degrees yields the original hue value modulo 360, so
two hue values are the same hue exactly when they differ by an integer
multiple of 360 degrees. -/
def hueEq {K : Type} [Ring K] (a b : K) : Prop :=
  ∃ n : ℤ, a - b = 360 * (n : K)

/-- The CIE 1931 XYZ color value from src/palette/src/xyz.rs, channels
x, y, z. The white point phantom tag stores no data and is omitted. -/
@[ext]
structure Xyz (K : Type) where
  x : K
  y : K
  z : K

/-- The CIE Lch color value from src/palette/src/lch.rs, channels l,
chroma and hue. The hue channel is stored as its scalar degree value. -/
@[ext]
structure Lch (K : Type) where
  l : K
  chroma : K
  hue : K

/-- The CIE Yxy color value (fields as used by xyz.rs and declared in the
make_color listing of lib.rs): chromaticity x, chromaticity y and luma. -/
structure Yxy (K : Type) where
  x : K
  y : K
  luma : K

/-- The CIE Lab color value (channels l, a, b as used by the From Lab
conversion in src/palette/src/lch.rs). -/
structure Lab where
  l : ℝ
  a : ℝ
  b : ℝ

/-- Mix for Xyz from src/palette/src/xyz.rs: the factor is clamped to
[0, 1] and every channel is linearly interpolated. -/
def Xyz.mix {K : Type} [LinearOrderedField K] (a b : Xyz K) (factor : K) : Xyz K :=
  let f := Palette.clamp factor 0 1
  ⟨a.x + f * (b.x - a.x), a.y + f * (b.y - a.y), a.z + f * (b.z - a.z)⟩

/-- Mix for Lch from src/palette/src/lch.rs: the factor is clamped to
[0, 1], l and chroma are linearly interpolated, and the hue moves by the
clamped factor times the normalized hue difference (the subtraction and
to_degrees normalization of the hue type live in hues.rs, which is not
among the sources, and are modelled from the spec as normalizeAngle). -/
def Lch.mix {K : Type} [LinearOrderedField K] [FloorRing K] (a b : Lch K) (factor : K) : Lch K :=
  let f := Palette.clamp factor 0 1
  let hueDiff := normalizeAngle (b.hue - a.hue)
  ⟨a.l + f * (b.l - a.l), a.chroma + f * (b.chroma - a.chroma), a.hue + f * hueDiff⟩

/-- Color equality for Lch values. The l and chroma channels are compared
as scalars; the hue channel is compared as an angle (hueEq), modelled from
the spec because hues.rs is not among the sources. -/
def Lch.eqv {K : Type} [Ring K] (a b : Lch K) : Prop :=
  a.l = b.l ∧ a.chroma = b.chroma ∧ hueEq a.hue b.hue

/-- Shade lighten for Xyz from src/palette/src/xyz.rs: the amount is added
to the y channel only. -/
def Xyz.lighten {K : Type} [LinearOrderedField K] (c : Xyz K) (amount : K) : Xyz K :=
  ⟨c.x, c.y + amount, c.z⟩

/-- The Shade trait default darken from src/palette/src/lib.rs applied to
Xyz: lighten with the negated amount. -/
def Xyz.darken {K : Type} [LinearOrderedField K] (c : Xyz K) (amount : K) : Xyz K :=
  Xyz.lighten c (-amount)

/-- Shade lighten for Lch from src/palette/src/lch.rs: l becomes
l + amount * 100, chroma and hue are unchanged. -/
def Lch.lighten {K : Type} [LinearOrderedField K] (c : Lch K) (amount : K) : Lch K :=
  ⟨c.l + amount * 100, c.chroma, c.hue⟩

/-- The Shade trait default darken from src/palette/src/lib.rs applied to
Lch: lighten with the negated amount. -/
def Lch.darken {K : Type} [LinearOrderedField K] (c : Lch K) (amount : K) : Lch K :=
  Lch.lighten c (-amount)

/-- Limited is_valid for Xyz from src/palette/src/xyz.rs: every channel
lies between 0 and the corresponding channel of the white point reference
tristimulus value wp (the Rust code obtains wp from the phantom white
point type). -/
def Xyz.is_valid {K : Type} [LinearOrderedField K] (wp c : Xyz K) : Prop :=
  0 ≤ c.x ∧ c.x ≤ wp.x ∧ 0 ≤ c.y ∧ c.y ≤ wp.y ∧ 0 ≤ c.z ∧ c.z ≤ wp.z

/-- Limited clamp for Xyz from src/palette/src/xyz.rs: every channel is
clamped between 0 and the corresponding channel of the white point
reference wp. -/
def Xyz.clamp {K : Type} [LinearOrderedField K] (wp c : Xyz K) : Xyz K :=
  ⟨Palette.clamp c.x 0 wp.x, Palette.clamp c.y 0 wp.y, Palette.clamp c.z 0 wp.z⟩

/-- Limited is_valid for Lch from src/palette/src/lch.rs: l lies in
[0, 100] and chroma is nonnegative. -/
def Lch.is_valid {K : Type} [LinearOrderedField K] (c : Lch K) : Prop :=
  0 ≤ c.l ∧ c.l ≤ 100 ∧ 0 ≤ c.chroma

/-- Limited clamp for Lch from src/palette/src/lch.rs: l is clamped to
[0, 100] and chroma is raised to at least 0 (chroma.max(zero)). -/
def Lch.clamp {K : Type} [LinearOrderedField K] (c : Lch K) : Lch K :=
  ⟨Palette.clamp c.l 0 100, max c.chroma 0, c.hue⟩

/-- GetHue for Lch from src/palette/src/lch.rs: none when chroma is at
most zero, otherwise the stored hue. -/
def Lch.get_hue {K : Type} [LinearOrderedField K] (c : Lch K) : Option K :=
  if c.chroma ≤ 0 then none else some c.hue

/-- The angle of the point (a, b) in degrees, in the interval (-180, 180]:
the atan2 function of the spec, realized as the complex argument. -/
noncomputable def atan2deg (b a : ℝ) : ℝ :=
  Complex.arg ⟨a, b⟩ * 180 / Real.pi

/-- Modelled from the spec: normalization of a degree angle from
(-180, 180] into [0, 360), as used by the Lab to Lch hue formula of the
spec (lab.rs, which computes the Lab hue, is not among the sources). -/
noncomputable def hueNorm (d : ℝ) : ℝ :=
  if d < 0 then d + 360 else d

/-- Modelled from the spec: the GetHue implementation for Lab lives in
lab.rs, which is not among the sources. Per the spec the hue is undefined
(no hue) when the chroma sqrt(a*a + b*b) is at most 0, and otherwise it is
atan2(b, a) in degrees normalized to [0, 360). -/
noncomputable def Lab.get_hue (c : Lab) : Option ℝ :=
  if Real.sqrt (c.a * c.a + c.b * c.b) ≤ 0 then none
  else some (hueNorm (atan2deg c.b c.a))

/-- The From Lab conversion for Lch from src/palette/src/lch.rs: l is
copied, chroma is sqrt(a*a + b*b), and the hue is the Lab hue with the
no-hue case defaulted to 0 (get_hue().unwrap_or(zero)). -/
noncomputable def Lch.from_lab (c : Lab) : Lch ℝ :=
  ⟨c.l, Real.sqrt (c.a * c.a + c.b * c.b), (Lab.get_hue c).getD 0⟩

/-- An idealized floating point scalar for the Yxy to Xyz conversion
guard: not a number, a signed infinity (true means positive), or a finite
rational tagged with whether it is subnormal. Finite arithmetic is exact
(rounding and overflow are abstracted away); special values follow the
usual floating point rules. -/
inductive FP where
  | nan : FP
  | inf : Bool → FP
  | fin : ℚ → Bool → FP

/-- The is_normal test of the scalar type: a finite, nonzero, not
subnormal value. Zero, infinities, not-a-number and subnormal values are
all not normal. -/
def FP.isNormal : FP → Bool
  | .fin q s => if q = 0 then false else !s
  | _ => false

/-- Multiplication on the idealized scalar: nan propagates, infinity times
zero is nan, infinity otherwise keeps the combined sign, and finite values
multiply exactly. -/
def FP.mul : FP → FP → FP
  | .nan, _ => .nan
  | _, .nan => .nan
  | .inf s, .inf t => .inf (s == t)
  | .inf s, .fin q _ => if q = 0 then .nan else .inf (s == decide (0 < q))
  | .fin q _, .inf s => if q = 0 then .nan else .inf (s == decide (0 < q))
  | .fin q _, .fin r _ => .fin (q * r) false

/-- Division on the idealized scalar: nan propagates, infinity over
infinity is nan, finite over infinity is zero, a nonzero finite value over
zero is a signed infinity, zero over zero is nan, and finite values with a
nonzero divisor divide exactly. -/
def FP.div : FP → FP → FP
  | .nan, _ => .nan
  | _, .nan => .nan
  | .inf _, .inf _ => .nan
  | .inf s, .fin q _ => if q < 0 then .inf (!s) else .inf s
  | .fin _ _, .inf _ => .fin 0 false
  | .fin q _, .fin r _ =>
      if r = 0 then (if q = 0 then .nan else .inf (decide (0 < q)))
      else .fin (q / r) false

/-- Subtraction on the idealized scalar: nan propagates, same-signed
infinities give nan, an infinity dominates a finite value, and finite
values subtract exactly. -/
def FP.sub : FP → FP → FP
  | .nan, _ => .nan
  | _, .nan => .nan
  | .inf s, .inf t => if s = t then .nan else .inf s
  | .inf s, .fin _ _ => .inf s
  | .fin _ _, .inf s => .inf !s
  | .fin q _, .fin r _ => .fin (q - r) false

/-- The unit value of the idealized scalar. -/
def FP.one : FP := .fin 1 false

/-- The From Yxy conversion for Xyz from src/palette/src/xyz.rs: start
from the default Xyz with y set to the luma; if the y chromaticity is
normal set x to luma * x / y and z to luma * (1 - x - y) / y, otherwise
leave x and z at the default 0. The function is total: no input panics. -/
def Xyz.from_yxy (c : Yxy FP) : Xyz FP :=
  if FP.isNormal c.y then
    ⟨FP.div (FP.mul c.luma c.x) c.y, c.luma,
     FP.div (FP.mul c.luma (FP.sub (FP.sub FP.one c.x) c.y)) c.y⟩
  else
    ⟨FP.fin 0 false, c.luma, FP.fin 0 false⟩

/-- A destination component type for the Component trait of
src/palette/src/lib.rs: its max_intensity value and its LIMITED flag. -/
structure Component where
  max_intensity : ℚ
  limited : Bool

/-- Component convert for u8 from src/palette/src/lib.rs: the u8 maximum
intensity is 255; scaled is the destination maximum times the source value
over 255, computed in a wide exact intermediate (f64 in the Rust code,
exact rationals here); limited destinations clamp to [0, max], unlimited
ones return the scaled value as is. -/
def u8_convert (v : ℚ) (d : Component) : ℚ :=
  let scaled := d.max_intensity * (v / 255)
  if d.limited then Palette.clamp scaled 0 d.max_intensity else scaled

/-- Component convert for f32 from src/palette/src/lib.rs: the f32 maximum
intensity is 1; scaled is the source value times the destination maximum;
limited destinations clamp to [0, max], unlimited ones return the scaled
value as is (arithmetic is exact here, abstracting float rounding). -/
def f32_convert (v : ℚ) (d : Component) : ℚ :=
  let scaled := v * d.max_intensity
  if d.limited then Palette.clamp scaled 0 d.max_intensity else scaled

lemma clamp_mem {K : Type} [LinearOrder K] {lo hi : K} (v : K) (h : lo ≤ hi) :
    lo ≤ Palette.clamp v lo hi ∧ Palette.clamp v lo hi ≤ hi := by
  unfold Palette.clamp
  split_ifs with h1 h2
  · exact ⟨le_refl lo, h⟩
  · exact ⟨h, le_refl hi⟩
  · exact ⟨le_of_not_lt h1, le_of_not_lt h2⟩

lemma clamp_eq_of_mem {K : Type} [LinearOrder K] {v lo hi : K}
    (h1 : lo ≤ v) (h2 : v ≤ hi) : Palette.clamp v lo hi = v := by
  unfold Palette.clamp
  rw [if_neg (not_lt.mpr h1), if_neg (not_lt.mpr h2)]

lemma clamp_clamp {K : Type} [LinearOrder K] (v lo hi : K) (h : lo ≤ hi) :
    Palette.clamp (Palette.clamp v lo hi) lo hi = Palette.clamp v lo hi :=
  clamp_eq_of_mem (clamp_mem v h).1 (clamp_mem v h).2

lemma normalizeAngle_mem (d : ℚ) :
    -180 < normalizeAngle d ∧ normalizeAngle d ≤ 180 := by
  have h1 : (d - 180) / 360 ≤ ((⌈(d - 180) / 360⌉ : ℤ) : ℚ) := Int.le_ceil _
  have h2 : ((⌈(d - 180) / 360⌉ : ℤ) : ℚ) < (d - 180) / 360 + 1 :=
    Int.ceil_lt_add_one _
  have h3 : (360 : ℚ) * ((d - 180) / 360) = d - 180 := by ring
  unfold normalizeAngle
  constructor
  · linarith
  · linarith

lemma normalizeAngle_hueEq (d : ℚ) : hueEq (normalizeAngle d) d :=
  ⟨-⌈(d - 180) / 360⌉, by unfold normalizeAngle; push_cast; ring⟩

lemma atan2deg_mem (b a : ℝ) : -180 < atan2deg b a ∧ atan2deg b a ≤ 180 := by
  have hpi := Real.pi_pos
  have h1 := Complex.arg_le_pi (⟨a, b⟩ : ℂ)
  have h2 := Complex.neg_pi_lt_arg (⟨a, b⟩ : ℂ)
  unfold atan2deg
  constructor
  · rw [lt_div_iff₀ hpi]
    nlinarith
  · rw [div_le_iff₀ hpi]
    nlinarith

lemma hueNorm_mem {d : ℝ} (h1 : -180 < d) (h2 : d ≤ 180) :
    0 ≤ hueNorm d ∧ hueNorm d < 360 := by
  unfold hueNorm
  split_ifs with h
  · exact ⟨by linarith, by linarith⟩
  · exact ⟨le_of_not_lt h, by linarith⟩

/-- C1: mix first clamps the factor to [0, 1] and then linearly
interpolates each channel: for Xyz every channel of the result is the
first channel plus the clamped factor times the channel difference; for
Lch the hue channel moves along the shortest angular path, adding the
clamped factor times the signed hue difference mapped mod 360 into
(-180, 180]. -/
theorem mix_is_clamped_lerp (a b : Xyz ℚ) (f : ℚ) (p q : Lch ℚ) (g : ℚ) :
    Xyz.mix a b f =
      ⟨a.x + Palette.clamp f 0 1 * (b.x - a.x),
       a.y + Palette.clamp f 0 1 * (b.y - a.y),
       a.z + Palette.clamp f 0 1 * (b.z - a.z)⟩ ∧
    Lch.mix p q g =
      ⟨p.l + Palette.clamp g 0 1 * (q.l - p.l),
       p.chroma + Palette.clamp g 0 1 * (q.chroma - p.chroma),
       p.hue + Palette.clamp g 0 1 * normalizeAngle (q.hue - p.hue)⟩ ∧
    -180 < normalizeAngle (q.hue - p.hue) ∧
    normalizeAngle (q.hue - p.hue) ≤ 180 ∧
    hueEq (normalizeAngle (q.hue - p.hue)) (q.hue - p.hue) :=
  ⟨rfl, rfl, (normalizeAngle_mem _).1, (normalizeAngle_mem _).2,
   normalizeAngle_hueEq _⟩

/-- C2: mixing with factor 0 returns the first color and mixing with
factor 1 returns the second color, for Xyz as plain channel equality and
for Lch including the hue channel, whose value is compared as an angle
(equal modulo 360 degrees). -/
theorem mix_endpoints (a b : Xyz ℚ) (p q : Lch ℚ) :
    Xyz.mix a b 0 = a ∧ Xyz.mix a b 1 = b ∧
    Lch.eqv (Lch.mix p q 0) p ∧ Lch.eqv (Lch.mix p q 1) q := by
  have c0 : Palette.clamp (0 : ℚ) 0 1 = 0 := by norm_num [Palette.clamp]
  have c1 : Palette.clamp (1 : ℚ) 0 1 = 1 := by norm_num [Palette.clamp]
  refine ⟨?_, ?_, ?_, ?_⟩
  · ext <;> simp [Xyz.mix, c0]
  · ext <;> (simp [Xyz.mix, c1]; try ring)
  · refine ⟨?_, ?_, ⟨0, ?_⟩⟩ <;> simp [Lch.mix, c0]
  · refine ⟨?_, ?_, ⟨-⌈(q.hue - p.hue - 180) / 360⌉, ?_⟩⟩
    · simp [Lch.mix, c1]
    · simp [Lch.mix, c1]
    · simp only [Lch.mix, c1, normalizeAngle]
      push_cast
      ring

/-- C3: converting Lab to Lch preserves l, sets chroma to the square root
of a squared plus b squared, and sets hue to atan2(b, a) expressed in
degrees and normalized to [0, 360). -/
theorem lab_to_lch_formula (c : Lab) :
    (Lch.from_lab c).l = c.l ∧
    (Lch.from_lab c).chroma = Real.sqrt (c.a ^ 2 + c.b ^ 2) ∧
    (Lch.from_lab c).hue = hueNorm (atan2deg c.b c.a) ∧
    0 ≤ (Lch.from_lab c).hue ∧ (Lch.from_lab c).hue < 360 := by
  have hc : (Lch.from_lab c).chroma = Real.sqrt (c.a ^ 2 + c.b ^ 2) := by
    show Real.sqrt (c.a * c.a + c.b * c.b) = _
    congr 1
    ring
  have hhue : (Lch.from_lab c).hue = hueNorm (atan2deg c.b c.a) := by
    show (Lab.get_hue c).getD 0 = _
    unfold Lab.get_hue
    split_ifs with h
    · have hs : Real.sqrt (c.a * c.a + c.b * c.b) = 0 :=
        le_antisymm h (Real.sqrt_nonneg _)
      have hle : c.a * c.a + c.b * c.b ≤ 0 := Real.sqrt_eq_zero'.mp hs
      have ha : c.a = 0 := by
        have h2 : c.a * c.a = 0 :=
          le_antisymm (by nlinarith [mul_self_nonneg c.b]) (mul_self_nonneg c.a)
        exact mul_self_eq_zero.mp h2
      have hb : c.b = 0 := by
        have h2 : c.b * c.b = 0 :=
          le_antisymm (by nlinarith [mul_self_nonneg c.a]) (mul_self_nonneg c.b)
        exact mul_self_eq_zero.mp h2
      rw [ha, hb]
      have hz : (⟨(0 : ℝ), (0 : ℝ)⟩ : ℂ) = 0 := rfl
      simp [atan2deg, hz, Complex.arg_zero, hueNorm]
    · rfl
  refine ⟨rfl, hc, hhue, ?_, ?_⟩
  · rw [hhue]
    exact (hueNorm_mem (atan2deg_mem c.b c.a).1 (atan2deg_mem c.b c.a).2).1
  · rw [hhue]
    exact (hueNorm_mem (atan2deg_mem c.b c.a).1 (atan2deg_mem c.b c.a).2).2

/-- C4: converting Yxy to Xyz when the y chromaticity is zero, nan,
infinite or subnormal leaves x and z at the finite default 0 and retains
the luma as the Y channel (the function is total, so no input panics);
for normal y it returns x = luma * x / y and z = luma * (1 - x - y) / y;
in both cases the Y channel is the luma. -/
theorem yxy_to_xyz_guard (c : Yxy FP) :
    ((c.y = FP.fin 0 false ∨ c.y = FP.nan ∨ (∃ s, c.y = FP.inf s) ∨
        (∃ q, c.y = FP.fin q true)) →
      Xyz.from_yxy c = ⟨FP.fin 0 false, c.luma, FP.fin 0 false⟩) ∧
    (FP.isNormal c.y = true →
      Xyz.from_yxy c =
        ⟨FP.div (FP.mul c.luma c.x) c.y, c.luma,
         FP.div (FP.mul c.luma (FP.sub (FP.sub FP.one c.x) c.y)) c.y⟩) ∧
    (Xyz.from_yxy c).y = c.luma := by
  refine ⟨?_, ?_, ?_⟩
  · rintro (h | h | ⟨s, h⟩ | ⟨q, h⟩) <;> simp [Xyz.from_yxy, FP.isNormal, h]
  · intro h
    simp [Xyz.from_yxy, h]
  · unfold Xyz.from_yxy
    split_ifs <;> rfl

/-- C5: Component convert scales the source value by the ratio of the
destination and source maximum intensities (255 for u8, 1 for f32),
clamps the result to [0, max] exactly when the destination is limited,
and returns it unclamped otherwise, where it may exceed the maximum
(witnessed by converting the f32 value 2 to an unlimited destination of
maximum 1). -/
theorem component_convert_spec (v : ℚ) (d : Component) :
    u8_convert v d =
      (if d.limited then
        Palette.clamp (v * (d.max_intensity / 255)) 0 d.max_intensity
       else v * (d.max_intensity / 255)) ∧
    f32_convert v d =
      (if d.limited then
        Palette.clamp (v * (d.max_intensity / 1)) 0 d.max_intensity
       else v * (d.max_intensity / 1)) ∧
    f32_convert 2 ⟨1, false⟩ = 2 ∧ ¬ f32_convert 2 ⟨1, false⟩ ≤ 1 := by
  have h8 : d.max_intensity * (v / 255) = v * (d.max_intensity / 255) := by
    ring
  have hf : v * d.max_intensity = v * (d.max_intensity / 1) := by ring
  refine ⟨?_, ?_, ?_, ?_⟩
  · simp only [u8_convert]
    rw [h8]
  · simp only [f32_convert]
    rw [hf]
  · norm_num [f32_convert]
  · norm_num [f32_convert]

/-- C6: clamp is idempotent and always yields a valid color, for Xyz with
respect to any white point reference with nonnegative channels (each
channel clamped to [0, reference channel]) and for Lch (l clamped to
[0, 100] and chroma raised to at least 0). -/
theorem clamp_idem_valid (wp c : Xyz ℚ) (d : Lch ℚ)
    (h : 0 ≤ wp.x ∧ 0 ≤ wp.y ∧ 0 ≤ wp.z) :
    Xyz.clamp wp (Xyz.clamp wp c) = Xyz.clamp wp c ∧
    Xyz.is_valid wp (Xyz.clamp wp c) ∧
    Lch.clamp (Lch.clamp d) = Lch.clamp d ∧
    Lch.is_valid (Lch.clamp d) ∧
    Xyz.clamp wp c =
      ⟨Palette.clamp c.x 0 wp.x, Palette.clamp c.y 0 wp.y,
       Palette.clamp c.z 0 wp.z⟩ ∧
    Lch.clamp d = ⟨Palette.clamp d.l 0 100, max d.chroma 0, d.hue⟩ := by
  obtain ⟨hx, hy, hz⟩ := h
  have h100 : (0 : ℚ) ≤ 100 := by norm_num
  refine ⟨?_, ?_, ?_, ?_, rfl, rfl⟩
  · unfold Xyz.clamp
    ext
    · exact clamp_clamp c.x 0 wp.x hx
    · exact clamp_clamp c.y 0 wp.y hy
    · exact clamp_clamp c.z 0 wp.z hz
  · exact ⟨(clamp_mem c.x hx).1, (clamp_mem c.x hx).2,
      (clamp_mem c.y hy).1, (clamp_mem c.y hy).2,
      (clamp_mem c.z hz).1, (clamp_mem c.z hz).2⟩
  · unfold Lch.clamp
    ext
    · exact clamp_clamp d.l 0 100 h100
    · rw [max_assoc, max_self]
    · rfl
  · exact ⟨(clamp_mem d.l h100).1, (clamp_mem d.l h100).2, le_max_right _ _⟩

/-- The D65 white point reference tristimulus value, with the channel
values recorded by the constants of the xyz.rs test module. -/
def d65 : Xyz ℚ := ⟨0.95047, 1, 1.08883⟩

/-- A sample out-of-range Xyz color. -/
def xyzSample : Xyz ℚ := ⟨2, -1, 1 / 2⟩

/-- A sample out-of-range Lch color. -/
def lchSample : Lch ℚ := ⟨150, -3, 400⟩

/-- Witness for C6 at the D65 white point and concrete colors. -/
theorem clamp_idem_valid_witness :
    Xyz.clamp d65 (Xyz.clamp d65 xyzSample) = Xyz.clamp d65 xyzSample ∧
    Xyz.is_valid d65 (Xyz.clamp d65 xyzSample) ∧
    Lch.clamp (Lch.clamp lchSample) = Lch.clamp lchSample ∧
    Lch.is_valid (Lch.clamp lchSample) ∧
    Xyz.clamp d65 xyzSample =
      ⟨Palette.clamp xyzSample.x 0 d65.x, Palette.clamp xyzSample.y 0 d65.y,
       Palette.clamp xyzSample.z 0 d65.z⟩ ∧
    Lch.clamp lchSample =
      ⟨Palette.clamp lchSample.l 0 100, max lchSample.chroma 0,
       lchSample.hue⟩ :=
  clamp_idem_valid d65 xyzSample lchSample (by norm_num [d65])

/-- C7: the Lch hue query returns none exactly when the chroma is at most
0, and returns the stored hue channel when the chroma is positive. -/
theorem get_hue_none_iff (c : Lch ℚ) :
    (Lch.get_hue c = none ↔ c.chroma ≤ 0) ∧
    (0 < c.chroma → Lch.get_hue c = some c.hue) := by
  unfold Lch.get_hue
  constructor
  · split_ifs with h
    · simp [h]
    · simp [h]
  · intro h
    rw [if_neg (not_le.mpr h)]

/-- C8: Lch lighten adds the amount scaled by 100 to the l channel and
leaves chroma and hue unchanged; darken is lighten with the negated
amount, both for Lch and for Xyz. -/
theorem shade_lighten_darken (c : Lch ℚ) (x : ℚ) (d : Xyz ℚ) (y : ℚ) :
    (Lch.lighten c x).l = c.l + x * 100 ∧
    (Lch.lighten c x).chroma = c.chroma ∧
    (Lch.lighten c x).hue = c.hue ∧
    Lch.darken c x = Lch.lighten c (-x) ∧
    Xyz.darken d y = Xyz.lighten d (-y) :=
  ⟨rfl, rfl, rfl, rfl, rfl⟩

/-- C9: a gray Lab color (a = 0 and b = 0) converts to an Lch color with
chroma 0 and hue exactly 0 degrees, keeping l. -/
theorem lab_gray_to_lch (l : ℝ) :
    (Lch.from_lab ⟨l, 0, 0⟩).chroma = 0 ∧
    (Lch.from_lab ⟨l, 0, 0⟩).hue = 0 ∧
    (Lch.from_lab ⟨l, 0, 0⟩).l = l := by
  refine ⟨?_, ?_, rfl⟩
  · show Real.sqrt (0 * 0 + 0 * 0) = 0
    simp
  · show (Lab.get_hue ⟨l, 0, 0⟩).getD 0 = 0
    unfold Lab.get_hue
    rw [if_pos]
    · rfl
    · simp

/-- C10: Xyz lighten adds the raw, unscaled amount to the y channel only,
leaving the x and z channels unchanged. -/
theorem xyz_lighten_only_y (c : Xyz ℚ) (amount : ℚ) :
    (Xyz.lighten c amount).x = c.x ∧
    (Xyz.lighten c amount).z = c.z ∧
    (Xyz.lighten c amount).y = c.y + amount :=
  ⟨rfl, rfl, rfl⟩

end Palette
